import Mathlib

/-!
Shallow embedding of the file-backed agent memory store of
`raw_agent_with_memory/agent_with_memory.py` (classes `AgentMemory` and
`OpenAIAgent`), together with theorems settling the specification claims.

Modelling conventions (each noted again at the definition it concerns):
* Python strings are Lean `String`s; the handful of `str` methods the code
  uses (`lower`, `split`, `strip`, `startswith`, slicing, substring test)
  are re-implemented below over `String.data` with Python semantics
  (`lower` is modelled for ASCII, which covers every literal in the code).
* `datetime.now().isoformat()` timestamps are modelled as naturals: ISO
  timestamp strings produced by a monotone clock compare lexicographically
  exactly as their creation times compare, and the code only ever compares
  or stores them.
* `importance` floats are modelled as rationals: the code never does float
  arithmetic on them, only comparisons, and comparison of (non-NaN) floats
  coincides with comparison of the exact rational values they denote.
* The JSON files are modelled at the level of their parsed content: a file
  is `absent`, `corrupt` (unparsable, `json.JSONDecodeError`), or `stored v`
  with `v` the parsed collection.  Serialization itself is done by the
  Python standard `json` module (external to this repository) and is exact
  on these records, so `json.load` after `json.dump` yields the value back.
* `list.sort` / `sorted` in Python are stable sorts; a stable sort by a key
  is a unique function of the input list and key, so they are embedded as
  `List.insertionSort` with the matching total preorder (Mathlib's
  `insertionSort` is stable: `orderedInsert` places the inserted element
  before the first element it compares `≼` to, and the recursion inserts
  earlier list elements last).
-/

namespace AgentMem

/-! ### Python string primitives, modelled over `List Char` -/

/-- Python `str.lower`, modelled for ASCII characters (the only characters
the repository manipulates); Lean's `Char.toLower` lowercases exactly the
ASCII uppercase range. -/
def lowerL (l : List Char) : List Char :=
  l.map Char.toLower

/-- Python `s.lower()` on a string. -/
def pyLower (s : String) : String :=
  ⟨lowerL s.data⟩

/-- Python `needle in haystack` substring test. -/
def isInfB (needle : List Char) : List Char → Bool
  | [] => needle.isEmpty
  | c :: cs => needle.isPrefixOf (c :: cs) || isInfB needle cs

/-- Python `s.startswith(pre)`. -/
def pyStartsWith (s pre : String) : Bool :=
  pre.data.isPrefixOf s.data

/-- Python slice `s[n:]` (drop the first `n` characters). -/
def pyDrop (s : String) (n : Nat) : String :=
  ⟨s.data.drop n⟩

/-- Python `s.strip()` with no argument: remove leading and trailing
whitespace. -/
def stripL (l : List Char) : List Char :=
  ((l.dropWhile Char.isWhitespace).reverse.dropWhile Char.isWhitespace).reverse

/-- Python `s.strip()` on a string. -/
def pyStrip (s : String) : String :=
  ⟨stripL s.data⟩

/-- Helper of `wsSplit`: `acc` holds the reversed characters of the token
currently being read. -/
def wsSplitAux : List Char → List Char → List (List Char)
  | [], acc => if acc.isEmpty then [] else [acc.reverse]
  | c :: cs, acc =>
    if c.isWhitespace then
      if acc.isEmpty then wsSplitAux cs []
      else acc.reverse :: wsSplitAux cs []
    else wsSplitAux cs (c :: acc)

/-- Python `s.split()` with no argument: split on runs of whitespace,
returning no empty pieces. -/
def wsSplit (l : List Char) : List (List Char) :=
  wsSplitAux l []

/-- Python `s.split(sep, 1)` when it succeeds in producing two pieces:
the part before the first `sep` and the part after it.  `none` when `sep`
does not occur (in which case the two-variable unpacking in the source
raises `ValueError`). -/
def splitAtFirst (sep : Char) : List Char → Option (List Char × List Char)
  | [] => none
  | c :: cs =>
    if c = sep then some ([], cs)
    else match splitAtFirst sep cs with
      | some (a, b) => some (c :: a, b)
      | none => none

/-- Python `s.split(sep)` with an explicit one-character separator: empty
pieces are kept, and the empty string yields one empty piece. -/
def splitStr (sep : Char) : List Char → List (List Char)
  | [] => [[]]
  | c :: cs =>
    if c = sep then [] :: splitStr sep cs
    else match splitStr sep cs with
      | [] => [[c]]
      | t :: ts => (c :: t) :: ts

/-! ### Data model (section 3 of the spec, from the source) -/

/-- A fact record, as built by `AgentMemory.add_fact`. -/
structure Fact where
  content : String
  category : Option String
  timestamp : Nat
deriving DecidableEq, Repr

/-- A procedure record, as built by `AgentMemory.add_procedure`. -/
structure Procedure where
  name : String
  steps : List String
  description : Option String
  timestamp : Nat
  usage_count : Nat
deriving DecidableEq, Repr

/-- A conversation turn, as built by `AgentMemory.add_conversation`.
Metadata values in the repository are always the empty dict. -/
structure ConversationTurn where
  user_message : String
  agent_response : String
  timestamp : Nat
  metadata : List (String × String)
deriving DecidableEq, Repr

/-- A working-memory item, as built by `AgentMemory.add_to_working_memory`. -/
structure WMItem where
  content : String
  importance : ℚ
  timestamp : Nat
deriving DecidableEq, Repr

/-- State of one persisted JSON file, at the level of parsed content:
missing, unparsable, or holding a parsed value. -/
inductive PFile (α : Type) where
  | absent
  | corrupt
  | stored (data : α)
deriving DecidableEq

/-- The storage directory: the three JSON files used by `AgentMemory`.
Procedures are a Python dict, modelled as an insertion-ordered
association list (Python dicts iterate in insertion order, and an
overwrite keeps the original position). -/
structure Disk where
  factsF : PFile (List Fact)
  proceduresF : PFile (List (String × Procedure))
  conversationsF : PFile (List ConversationTurn)
deriving DecidableEq

/-- An `AgentMemory` instance: the three loaded collections, the volatile
working memory, the capacity, and the directory it persists to. -/
structure Store where
  facts : List Fact
  procedures : List (String × Procedure)
  conversations : List ConversationTurn
  workingMemory : List WMItem
  capacity : Nat
  disk : Disk

/-- Behaviour of `AgentMemory._load_json`: the parsed value when the file
exists and parses, the supplied default otherwise (the
`json.JSONDecodeError` of a corrupt file is swallowed). -/
def loadOr {α : Type} (default : α) : PFile α → α
  | .absent => default
  | .corrupt => default
  | .stored v => v

/-- Behaviour of `AgentMemory.__init__`: load the three collections with
empty defaults, start with empty working memory and capacity 10. -/
def initStore (d : Disk) : Store where
  facts := loadOr [] d.factsF
  procedures := loadOr [] d.proceduresF
  conversations := loadOr [] d.conversationsF
  workingMemory := []
  capacity := 10
  disk := d

/-! ### Operations of `AgentMemory` -/

/-- Python key `(x["importance"], x["timestamp"])` compared as a tuple:
lexicographic on (importance, timestamp). -/
def wmLe (a b : WMItem) : Prop :=
  a.importance < b.importance ∨
    (a.importance = b.importance ∧ a.timestamp ≤ b.timestamp)

instance : DecidableRel wmLe := fun a b =>
  inferInstanceAs (Decidable (a.importance < b.importance ∨
    (a.importance = b.importance ∧ a.timestamp ≤ b.timestamp)))

/-- `AgentMemory.add_fact`: append the record and rewrite the whole facts
file.  `ts` stands for the `datetime.now()` call. -/
def addFact (st : Store) (content : String) (category : Option String)
    (ts : Nat) : Store :=
  let facts := st.facts ++ [⟨content, category, ts⟩]
  { st with
    facts := facts
    disk := { st.disk with factsF := .stored facts } }

/-- Python `self.procedures[name] = procedure` on the insertion-ordered
dict: overwrite in place if the key exists, else append. -/
def upsert (name : String) (p : Procedure) :
    List (String × Procedure) → List (String × Procedure)
  | [] => [(name, p)]
  | (n, q) :: rest =>
    if n = name then (name, p) :: rest else (n, q) :: upsert name p rest

/-- `AgentMemory.add_procedure`: insert/overwrite the record keyed by
`name` with `usage_count = 0` and rewrite the whole procedures file. -/
def addProcedure (st : Store) (name : String) (steps : List String)
    (description : Option String) (ts : Nat) : Store :=
  let procs := upsert name ⟨name, steps, description, ts, 0⟩ st.procedures
  { st with
    procedures := procs
    disk := { st.disk with proceduresF := .stored procs } }

/-- `AgentMemory.add_to_working_memory`: append the item; if the size now
exceeds capacity, sort ascending by `(importance, timestamp)` (stable) and
drop the head.  Note the list stays sorted after an eviction. -/
def addToWorkingMemory (st : Store) (content : String) (importance : ℚ)
    (ts : Nat) : Store :=
  let wm := st.workingMemory ++ [⟨content, importance, ts⟩]
  if st.capacity < wm.length then
    { st with workingMemory := (List.insertionSort wmLe wm).tail }
  else
    { st with workingMemory := wm }

/-- `AgentMemory.add_conversation`: append the turn, rewrite the whole
conversations file, then insert the user message (importance 1.0) and the
agent response (importance 0.9) into working memory.  `t1 t2 t3` stand for
the three successive `datetime.now()` calls. -/
def addConversation (st : Store) (user_message agent_response : String)
    (metadata : List (String × String)) (t1 t2 t3 : Nat) : Store :=
  let convs := st.conversations ++ [⟨user_message, agent_response, t1, metadata⟩]
  let st1 := { st with
    conversations := convs
    disk := { st.disk with conversationsF := .stored convs } }
  let st2 := addToWorkingMemory st1 ("User: " ++ user_message) 1 t2
  addToWorkingMemory st2 ("Agent: " ++ agent_response) (mkRat 9 10) t3

/-- Lower-cased whitespace tokens of a query (`query.lower().split()`). -/
def queryTokens (q : String) : List (List Char) :=
  wsSplit (lowerL q.data)

/-- Score of one fact against a query: the number of query tokens occurring
as substrings of the lower-cased content
(`sum(1 for term in query_terms if term in content)`). -/
def factScore (q : String) (f : Fact) : Nat :=
  (queryTokens q).countP (fun t => isInfB t (lowerL f.content.data))

/-- The `(fact, score)` pairs with positive score, in insertion order. -/
def scoredFacts (facts : List Fact) (q : String) : List (Fact × Nat) :=
  facts.filterMap (fun f =>
    let s := factScore q f
    if 0 < s then some (f, s) else none)

/-- Descending-score order on the scored pairs
(`results.sort(key=lambda x: x[1], reverse=True)`). -/
def scoreDesc (a b : Fact × Nat) : Prop := b.2 ≤ a.2

instance : DecidableRel scoreDesc := fun a b => Nat.decLe b.2 a.2

/-- `AgentMemory.search_facts`: score, keep positive scores, stable-sort by
descending score, truncate, return the facts. -/
def searchFacts (facts : List Fact) (q : String) (limit : Nat) : List Fact :=
  ((List.insertionSort scoreDesc (scoredFacts facts q)).take limit).map Prod.fst

/-- The untruncated `search_facts` result list. -/
def searchFactsFull (facts : List Fact) (q : String) : List Fact :=
  (List.insertionSort scoreDesc (scoredFacts facts q)).map Prod.fst

/-- Python `f"{name} {procedure.get('description', '')}"`: the key exists
and holds `None` when no description was given, which the f-string renders
as the four characters `None`. -/
def procText (name : String) (p : Procedure) : String :=
  name ++ " " ++ (match p.description with | some d => d | none => "None")

/-- Membership test of `search_procedures`: the entire lower-cased query is
a substring of the lower-cased `name + " " + description` text. -/
def procMatch (q : String) (e : String × Procedure) : Bool :=
  isInfB (lowerL q.data) (lowerL (procText e.1 e.2).data)

/-- Descending order on `usage_count`
(`results.sort(key=lambda x: x.get("usage_count", 0), reverse=True)`). -/
def usageDesc (a b : Procedure) : Prop := b.usage_count ≤ a.usage_count

instance : DecidableRel usageDesc := fun a b =>
  Nat.decLe b.usage_count a.usage_count

/-- `AgentMemory.search_procedures`: keep the procedures whose text
contains the whole lower-cased query, stable-sort by descending
`usage_count`, truncate. -/
def searchProcedures (procs : List (String × Procedure)) (q : String)
    (limit : Nat) : List Procedure :=
  let results := procs.filterMap (fun e =>
    if procMatch q e then some e.2 else none)
  (List.insertionSort usageDesc results).take limit

/-- The untruncated `search_procedures` result list. -/
def searchProceduresFull (procs : List (String × Procedure)) (q : String) :
    List Procedure :=
  List.insertionSort usageDesc (procs.filterMap (fun e =>
    if procMatch q e then some e.2 else none))

/-- Python slice `l[-n:]` for a nonnegative `n`: the last `n` elements,
except that `l[-0:]` is `l[0:]`, the whole list. -/
def pySliceLast {α : Type} (l : List α) (n : Nat) : List α :=
  if n = 0 then l else l.drop (l.length - n)

/-- `AgentMemory.get_recent_conversations`:
`self.conversations[-count:] if len(self.conversations) >= count else
self.conversations`. -/
def getRecentConversations (convs : List ConversationTurn) (count : Nat) :
    List ConversationTurn :=
  if count ≤ convs.length then pySliceLast convs count else convs

/-- Descending `(importance, timestamp)` order used to display working
memory (`sorted(..., reverse=True)`). -/
def wmDesc (a b : WMItem) : Prop := wmLe b a

instance : DecidableRel wmDesc := fun a b =>
  inferInstanceAs (Decidable (wmLe b a))

/-- `AgentMemory.generate_context_for_llm`: the exact context block built
by the source, finally stripped. -/
def generateContext (st : Store) (msg : String) : String :=
  let workingItems := List.insertionSort wmDesc st.workingMemory
  let workingMemoryText :=
    String.intercalate "\n" (workingItems.map (fun i => "- " ++ i.content))
  let recent := getRecentConversations st.conversations 3
  let recentText := String.intercalate "\n" (recent.map (fun c =>
    "User: " ++ c.user_message ++ "\nAgent: " ++ c.agent_response))
  let relevantFacts := searchFacts st.facts msg 3
  let factsText :=
    String.intercalate "\n" (relevantFacts.map (fun f => "- " ++ f.content))
  let relevantProcs := searchProcedures st.procedures msg 2
  let proceduresText := String.join (relevantProcs.map (fun p =>
    let steps := String.intercalate "\n" ((List.enum p.steps).map
      (fun e => "  " ++ toString (e.1 + 1) ++ ". " ++ e.2))
    "Procedure: " ++ p.name ++ "\n" ++ steps ++ "\n\n"))
  pyStrip ("\n### Current Context (Working Memory):\n" ++ workingMemoryText ++
    "\n\n### Recent Conversation History:\n" ++ recentText ++
    "\n\n### Relevant Facts from Memory:\n" ++ factsText ++
    "\n\n### Relevant Procedures:\n" ++ proceduresText ++ "\n")

/-! ### The `OpenAIAgent` layer -/

/-- Confirmation string returned by `OpenAIAgent.learn_fact`. -/
def factConfirmation (fact : String) : String :=
  "I've learned this fact: " ++ fact

/-- Confirmation string returned by `OpenAIAgent.learn_procedure`. -/
def procConfirmation (name : String) : String :=
  "I've learned the procedure: " ++ name

/-- Usage-hint error returned when the procedure command cannot be parsed
(the `ValueError` branch of `OpenAIAgent.query`). -/
def usageHint : String :=
  "I couldn't parse the procedure. Please follow the format: 'Remember the steps for [Procedure Name]: step1, step2, step3'"

/-- `OpenAIAgent.query`.  The external LLM capability is a parameter
`llm : context → user message → Except error response`; the command
branches return before it is ever consulted.  `t1 t2 t3` stand for the
`datetime.now()` calls that the reached branch performs. -/
def query (llm : String → String → Except String String) (st : Store)
    (msg : String) (t1 t2 t3 : Nat) : String × Store :=
  if pyStartsWith (pyLower msg) "remember that" then
    let fact := pyStrip (pyDrop msg 14)
    (factConfirmation fact, addFact st fact none t1)
  else if pyStartsWith (pyLower msg) "remember the steps for" then
    match splitAtFirst ':' msg.data with
    | some (titlePart, stepsPart) =>
      let name := pyStrip (pyDrop ⟨titlePart⟩ 22)
      let steps := (splitStr ',' stepsPart).map (fun s => pyStrip ⟨s⟩)
      (procConfirmation name, addProcedure st name steps none t1)
    | none => (usageHint, st)
  else
    match llm (generateContext st msg) msg with
    | .ok r => (r, addConversation st msg r [] t1 t2 t3)
    | .error e => ("Error: API request failed: " ++ e, st)

/-- The four self-description facts added by `OpenAIAgent.__init__`. -/
def selfFacts : List String :=
  ["I am an AI assistant with memory capabilities.",
   "I can remember user interactions and recall them later.",
   "I can store and retrieve factual information.",
   "I can remember and execute procedures and workflows."]

/-- `OpenAIAgent.__init__`: construct the store over the directory, then
add the four self-description facts (category `None`).  `t1 t2 t3 t4`
stand for the four `datetime.now()` calls. -/
def agentInit (d : Disk) (t1 t2 t3 t4 : Nat) : Store :=
  addFact (addFact (addFact (addFact (initStore d)
    (selfFacts.get! 0) none t1)
    (selfFacts.get! 1) none t2)
    (selfFacts.get! 2) none t3)
    (selfFacts.get! 3) none t4

/-- Fold a sequence of `add_to_working_memory` calls over a store. -/
def applyWM (ops : List (String × ℚ × Nat)) (st : Store) : Store :=
  ops.foldl (fun s o => addToWorkingMemory s o.1 o.2.1 o.2.2) st

/-- Fold a sequence of `add_fact` calls over a store. -/
def applyAddFacts (inputs : List (String × Option String × Nat))
    (st : Store) : Store :=
  inputs.foldl (fun s i => addFact s i.1 i.2.1 i.2.2) st

/-! ### Order properties of the sort relations -/

lemma wmLe_refl (a : WMItem) : wmLe a a :=
  Or.inr ⟨rfl, le_refl _⟩

lemma wmLe_total (a b : WMItem) : wmLe a b ∨ wmLe b a := by
  rcases lt_trichotomy a.importance b.importance with h | h | h
  · exact Or.inl (Or.inl h)
  · rcases Nat.le_total a.timestamp b.timestamp with ht | ht
    · exact Or.inl (Or.inr ⟨h, ht⟩)
    · exact Or.inr (Or.inr ⟨h.symm, ht⟩)
  · exact Or.inr (Or.inl h)

lemma wmLe_trans (a b c : WMItem) : wmLe a b → wmLe b c → wmLe a c := by
  rintro (h | ⟨he, ht⟩) (h2 | ⟨he2, ht2⟩)
  · exact Or.inl (h.trans h2)
  · exact Or.inl (he2 ▸ h)
  · exact Or.inl (he ▸ h2)
  · exact Or.inr ⟨he.trans he2, ht.trans ht2⟩

instance : IsTotal WMItem wmLe := ⟨wmLe_total⟩

instance : IsTrans WMItem wmLe := ⟨wmLe_trans⟩

instance : IsTotal WMItem wmDesc := ⟨fun a b => wmLe_total b a⟩

instance : IsTrans WMItem wmDesc := ⟨fun a b c h1 h2 => wmLe_trans c b a h2 h1⟩

instance : IsTotal (Fact × Nat) scoreDesc := ⟨fun a b => Nat.le_total b.2 a.2⟩

instance : IsTrans (Fact × Nat) scoreDesc :=
  ⟨fun _ _ _ h1 h2 => Nat.le_trans h2 h1⟩

instance : IsTotal Procedure usageDesc :=
  ⟨fun a b => Nat.le_total b.usage_count a.usage_count⟩

instance : IsTrans Procedure usageDesc :=
  ⟨fun _ _ _ h1 h2 => Nat.le_trans h2 h1⟩

/-! ### Prefix lemmas for the command dispatch -/

lemma isPrefixOf_append_left :
    ∀ p q t : List Char, p.length ≤ q.length →
      List.isPrefixOf p (q ++ t) = List.isPrefixOf p q
  | [], _, _, _ => by simp [List.isPrefixOf]
  | _ :: _, [], _, h => by simp at h
  | a :: as, b :: bs, t, h => by
    simp only [List.cons_append, List.isPrefixOf, List.append_eq]
    rw [isPrefixOf_append_left as bs t (Nat.le_of_succ_le_succ h)]

lemma eq_append_of_isPrefixOf :
    ∀ {p l : List Char}, List.isPrefixOf p l = true → ∃ t, l = p ++ t := by
  intro p
  induction p with
  | nil => exact fun {l} _ => ⟨l, rfl⟩
  | cons a as ih =>
    intro l h
    cases l with
    | nil => simp [List.isPrefixOf] at h
    | cons b bs =>
      simp only [List.isPrefixOf, Bool.and_eq_true, beq_iff_eq] at h
      obtain ⟨t, ht⟩ := ih h.2
      exact ⟨t, by rw [h.1, List.cons_append, ← ht]⟩

/-- A message recognized as a procedure command is not recognized as a fact
command: the two literal prefixes disagree at character 10. -/
lemma not_fact_of_proc {msg : String}
    (h : pyStartsWith (pyLower msg) "remember the steps for" = true) :
    pyStartsWith (pyLower msg) "remember that" = false := by
  unfold pyStartsWith at *
  obtain ⟨t, ht⟩ := eq_append_of_isPrefixOf h
  rw [ht, isPrefixOf_append_left _ _ _ (by decide)]
  decide

/-! ### The eviction step picks a minimum -/

/-- The ascending stable sort of a nonempty list starts with an element
that is a lower bound of the original list, and the sorted list is a
permutation of the original. -/
lemma evict_head_min (wm : List WMItem) (h : wm ≠ []) :
    ∃ e rest, List.insertionSort wmLe wm = e :: rest ∧ e ∈ wm ∧
      (∀ x ∈ wm, wmLe e x) ∧ (e :: rest).Perm wm := by
  rcases hs : List.insertionSort wmLe wm with _ | ⟨e, rest⟩
  · have hp := List.perm_insertionSort wmLe wm
    rw [hs] at hp
    exact absurd hp.symm.eq_nil h
  · have hperm : (e :: rest).Perm wm := hs ▸ List.perm_insertionSort wmLe wm
    have hsorted : List.Sorted wmLe (e :: rest) :=
      hs ▸ List.sorted_insertionSort wmLe wm
    refine ⟨e, rest, rfl, hperm.mem_iff.mp (List.mem_cons_self e rest),
      fun x hx => ?_, hperm⟩
    rcases List.mem_cons.mp (hperm.mem_iff.mpr hx) with h1 | h1
    · exact h1 ▸ wmLe_refl e
    · exact List.rel_of_sorted_cons hsorted x h1

/-! ### Stability of the descending-score sort

Within one score class, `insertionSort scoreDesc` keeps the original
order: filtering the sorted list to one score value gives the same list as
filtering the input. -/

lemma filter_orderedInsert_scoreDesc (s : Nat) (x : Fact × Nat)
    (l : List (Fact × Nat)) :
    (List.orderedInsert scoreDesc x l).filter (fun a => decide (a.2 = s)) =
      if x.2 = s then x :: l.filter (fun a => decide (a.2 = s))
      else l.filter (fun a => decide (a.2 = s)) := by
  induction l with
  | nil =>
    by_cases h : x.2 = s <;> simp [List.orderedInsert, List.filter, h]
  | cons y ys ih =>
    by_cases hr : scoreDesc x y
    · rw [List.orderedInsert, if_pos hr]
      by_cases h : x.2 = s <;> simp [List.filter_cons, h]
    · rw [List.orderedInsert, if_neg hr]
      have hy : x.2 < y.2 := Nat.lt_of_not_le hr
      by_cases h : x.2 = s
      · have hyne : ¬ y.2 = s := by omega
        simp [List.filter_cons, hyne, ih, h]
      · by_cases hys : y.2 = s <;> simp [List.filter_cons, hys, ih, h]

lemma filter_insertionSort_scoreDesc (s : Nat) (l : List (Fact × Nat)) :
    (List.insertionSort scoreDesc l).filter (fun a => decide (a.2 = s)) =
      l.filter (fun a => decide (a.2 = s)) := by
  induction l with
  | nil => rfl
  | cons x xs ih =>
    rw [List.insertionSort, filter_orderedInsert_scoreDesc]
    by_cases h : x.2 = s <;> simp [List.filter_cons, h, ih]

/-! ### The scored pair list -/

lemma mem_scoredFacts {facts : List Fact} {q : String} {pr : Fact × Nat}
    (h : pr ∈ scoredFacts facts q) :
    pr.1 ∈ facts ∧ pr.2 = factScore q pr.1 ∧ 0 < pr.2 := by
  obtain ⟨f, hf, heq⟩ := List.mem_filterMap.mp h
  by_cases hs : 0 < factScore q f
  · rw [if_pos hs] at heq
    cases heq
    exact ⟨hf, rfl, hs⟩
  · rw [if_neg hs] at heq
    cases heq

lemma map_fst_scoredFacts (facts : List Fact) (q : String) :
    (scoredFacts facts q).map Prod.fst =
      facts.filter (fun f => decide (0 < factScore q f)) := by
  induction facts with
  | nil => rfl
  | cons f fs ih =>
    simp only [scoredFacts, List.filterMap_cons, List.filter_cons] at *
    by_cases hs : 0 < factScore q f
    · simp [if_pos hs, decide_eq_true hs, List.map_cons, ih]
    · simp [if_neg hs, decide_eq_false hs, ih]

/-! ### Frame lemmas -/

lemma addToWorkingMemory_facts (st : Store) (c : String) (i : ℚ) (t : Nat) :
    (addToWorkingMemory st c i t).facts = st.facts := by
  by_cases h : st.capacity < st.workingMemory.length + 1 <;>
    simp [addToWorkingMemory, h]

lemma addToWorkingMemory_conversations (st : Store) (c : String) (i : ℚ)
    (t : Nat) : (addToWorkingMemory st c i t).conversations =
      st.conversations := by
  by_cases h : st.capacity < st.workingMemory.length + 1 <;>
    simp [addToWorkingMemory, h]

lemma addToWorkingMemory_capacity (st : Store) (c : String) (i : ℚ)
    (t : Nat) : (addToWorkingMemory st c i t).capacity = st.capacity := by
  by_cases h : st.capacity < st.workingMemory.length + 1 <;>
    simp [addToWorkingMemory, h]

lemma addConversation_facts (st : Store) (u a : String)
    (md : List (String × String)) (t1 t2 t3 : Nat) :
    (addConversation st u a md t1 t2 t3).facts = st.facts := by
  unfold addConversation
  rw [addToWorkingMemory_facts, addToWorkingMemory_facts]

lemma addConversation_conversations (st : Store) (u a : String)
    (md : List (String × String)) (t1 t2 t3 : Nat) :
    (addConversation st u a md t1 t2 t3).conversations =
      st.conversations ++ [⟨u, a, t1, md⟩] := by
  unfold addConversation
  rw [addToWorkingMemory_conversations, addToWorkingMemory_conversations]

/-! ### Working-memory size invariant -/

lemma addToWorkingMemory_length_le (st : Store) (c : String) (i : ℚ) (t : Nat)
    (h : st.workingMemory.length ≤ st.capacity) :
    (addToWorkingMemory st c i t).workingMemory.length ≤ st.capacity := by
  by_cases hc : st.capacity < st.workingMemory.length + 1
  · simp [addToWorkingMemory, hc, List.length_tail]
    omega
  · simp [addToWorkingMemory, hc]
    omega

lemma applyWM_length_invariant (ops : List (String × ℚ × Nat)) :
    ∀ st : Store, st.workingMemory.length ≤ st.capacity →
      (applyWM ops st).workingMemory.length ≤ st.capacity ∧
        (applyWM ops st).capacity = st.capacity := by
  induction ops with
  | nil => exact fun st h => ⟨h, rfl⟩
  | cons o rest ih =>
    intro st h
    have hcap := addToWorkingMemory_capacity st o.1 o.2.1 o.2.2
    have hlen := addToWorkingMemory_length_le st o.1 o.2.1 o.2.2 h
    have hstep := ih (addToWorkingMemory st o.1 o.2.1 o.2.2)
      (by rw [hcap]; exact hlen)
    exact ⟨hcap ▸ hstep.1, hcap ▸ hstep.2⟩

/-- Claim C1: after any sequence of `add_to_working_memory` calls on a
fresh store the working memory holds at most 10 items (the capacity), and
whenever an insertion overflows the capacity, exactly one item is evicted,
and it has a minimal `(importance, timestamp)` pair — ties on importance
broken by older timestamp — among all items present just before the
eviction, the newly inserted item included. -/
theorem C1_working_memory_capacity (d : Disk)
    (ops : List (String × ℚ × Nat)) :
    (applyWM ops (initStore d)).workingMemory.length ≤ 10 ∧
    (∀ (st : Store) (content : String) (importance : ℚ) (ts : Nat),
      st.capacity ≤ st.workingMemory.length →
      ∃ e : WMItem,
        e ∈ st.workingMemory ++ [⟨content, importance, ts⟩] ∧
        (∀ x ∈ st.workingMemory ++ [⟨content, importance, ts⟩], wmLe e x) ∧
        (e :: (addToWorkingMemory st content importance ts).workingMemory).Perm
          (st.workingMemory ++ [⟨content, importance, ts⟩])) := by
  constructor
  · exact (applyWM_length_invariant ops (initStore d) (by simp [initStore])).1
  · intro st c i t h
    have hne : st.workingMemory ++ [(⟨c, i, t⟩ : WMItem)] ≠ [] := by simp
    obtain ⟨e, rest, hs, hmem, hmin, hperm⟩ := evict_head_min _ hne
    have hc : st.capacity < st.workingMemory.length + 1 := by omega
    refine ⟨e, hmem, hmin, ?_⟩
    have hwm : (addToWorkingMemory st c i t).workingMemory = rest := by
      simp [addToWorkingMemory, hc, hs]
    rw [hwm]
    exact hperm

/-- Claim C1 witnessed at a full store: ten items of increasing importance
fill the store, and inserting an eleventh evicts a minimal one. -/
theorem C1_witness :
    (applyWM (List.range 10 |>.map (fun n : Nat => ("x", (n : ℚ), n)))
        (initStore ⟨.absent, .absent, .absent⟩)).workingMemory.length ≤ 10 ∧
    ∃ e : WMItem,
      e ∈ (applyWM (List.range 10 |>.map (fun n : Nat => ("x", (n : ℚ), n)))
          (initStore ⟨.absent, .absent, .absent⟩)).workingMemory ++
          [⟨"y", 5, 10⟩] ∧
      (∀ x ∈ (applyWM (List.range 10 |>.map (fun n : Nat => ("x", (n : ℚ), n)))
          (initStore ⟨.absent, .absent, .absent⟩)).workingMemory ++
          [⟨"y", 5, 10⟩], wmLe e x) ∧
      (e :: (addToWorkingMemory
          (applyWM (List.range 10 |>.map (fun n : Nat => ("x", (n : ℚ), n)))
            (initStore ⟨.absent, .absent, .absent⟩)) "y" 5 10).workingMemory).Perm
        ((applyWM (List.range 10 |>.map (fun n : Nat => ("x", (n : ℚ), n)))
          (initStore ⟨.absent, .absent, .absent⟩)).workingMemory ++
          [⟨"y", 5, 10⟩]) := by
  refine ⟨(C1_working_memory_capacity ⟨.absent, .absent, .absent⟩
    (List.range 10 |>.map (fun n : Nat => ("x", (n : ℚ), n)))).1, ?_⟩
  exact (C1_working_memory_capacity ⟨.absent, .absent, .absent⟩
    (List.range 10 |>.map (fun n : Nat => ("x", (n : ℚ), n)))).2
    _ "y" 5 10 (by decide)

/-! ### Claim theorems -/

/-- Claim C4 counterexample: with one stored conversation and
`count = 0`, the claim as stated demands the last zero conversations,
the empty list; the code takes the Python slice `[-0:]`, the whole list,
and returns the stored conversation. -/
theorem C4_counterexample :
    getRecentConversations [⟨"hi", "yo", 0, []⟩] 0 = [⟨"hi", "yo", 0, []⟩] ∧
      getRecentConversations [⟨"hi", "yo", 0, []⟩] 0 ≠ [] := by
  decide

/-- Claim C4 amended: for every positive `count`,
`get_recent_conversations(count)` returns all stored conversations when
fewer than `count` exist, and otherwise the last `count` of them in
insertion order; at `count = 0` the code instead returns all stored
conversations (Python `[-0:]` slice). -/
theorem C4_get_recent_amended (convs : List ConversationTurn) (count : Nat)
    (h : 0 < count) :
    (convs.length < count → getRecentConversations convs count = convs) ∧
    (count ≤ convs.length →
      getRecentConversations convs count =
        convs.drop (convs.length - count)) := by
  constructor
  · intro hlt
    rw [getRecentConversations, if_neg (by omega)]
  · intro hle
    rw [getRecentConversations, if_pos hle, pySliceLast, if_neg (by omega)]

/-- Claim C4 amended, witnessed at two stored conversations and
`count = 1`: the returned slice is the last conversation. -/
theorem C4_witness :
    getRecentConversations [⟨"a", "b", 0, []⟩, ⟨"c", "d", 1, []⟩] 1 =
      List.drop 1 [⟨"a", "b", 0, []⟩, ⟨"c", "d", 1, []⟩] := by
  exact (C4_get_recent_amended [⟨"a", "b", 0, []⟩, ⟨"c", "d", 1, []⟩] 1
    (by decide)).2 (by decide)

/-- Invariant behind claim C6: after any sequence of `add_fact` calls the
facts file on disk holds exactly the in-memory facts list. -/
lemma applyAddFacts_disk_invariant
    (inputs : List (String × Option String × Nat)) :
    ∀ st : Store, loadOr [] st.disk.factsF = st.facts →
      loadOr [] (applyAddFacts inputs st).disk.factsF =
        (applyAddFacts inputs st).facts := by
  induction inputs with
  | nil => exact fun st h => h
  | cons i rest ih =>
    intro st h
    exact ih (addFact st i.1 i.2.1 i.2.2) rfl

/-- Claim C6: a fresh store constructed over the storage directory left by
a store that performed any sequence of `add_fact` calls loads a facts
collection equal, in order and content, to the facts the writing store
held. -/
theorem C6_persistence_round_trip (d : Disk)
    (inputs : List (String × Option String × Nat)) :
    (initStore (applyAddFacts inputs (initStore d)).disk).facts =
      (applyAddFacts inputs (initStore d)).facts := by
  exact applyAddFacts_disk_invariant inputs (initStore d) rfl

/-- Claim C7: a corrupt (unparsable) persisted file never fails store
construction; the corresponding collection is initialized to its empty
default (construction is a total function in this model, and the
`json.JSONDecodeError` is swallowed inside `_load_json`). -/
theorem C7_corrupt_file_defaults (d : Disk) :
    (d.factsF = .corrupt → (initStore d).facts = []) ∧
    (d.proceduresF = .corrupt → (initStore d).procedures = []) ∧
    (d.conversationsF = .corrupt → (initStore d).conversations = []) := by
  refine ⟨fun h => ?_, fun h => ?_, fun h => ?_⟩ <;>
    simp [initStore, h, loadOr]

/-- Claim C7 witnessed on a directory whose three files are all corrupt:
all three collections come up empty. -/
theorem C7_witness :
    (initStore ⟨.corrupt, .corrupt, .corrupt⟩).facts = [] ∧
    (initStore ⟨.corrupt, .corrupt, .corrupt⟩).procedures = [] ∧
    (initStore ⟨.corrupt, .corrupt, .corrupt⟩).conversations = [] := by
  have h := C7_corrupt_file_defaults ⟨.corrupt, .corrupt, .corrupt⟩
  exact ⟨h.1 rfl, h.2.1 rfl, h.2.2 rfl⟩

/-- Claim C10: constructing an `OpenAIAgent` appends exactly the four
fixed self-description facts (category `None`) to whatever facts the
directory already held, persists the grown list, leaves procedures and
conversations (in memory and on disk) untouched, and doing it again over
the resulting directory appends the same four contents again. -/
theorem C10_agent_init_appends_four (d : Disk) (t1 t2 t3 t4 : Nat) :
    (agentInit d t1 t2 t3 t4).facts = loadOr [] d.factsF ++
      [⟨selfFacts.get! 0, none, t1⟩, ⟨selfFacts.get! 1, none, t2⟩,
       ⟨selfFacts.get! 2, none, t3⟩, ⟨selfFacts.get! 3, none, t4⟩] ∧
    (agentInit d t1 t2 t3 t4).disk.factsF =
      .stored ((agentInit d t1 t2 t3 t4).facts) ∧
    (agentInit d t1 t2 t3 t4).procedures = loadOr [] d.proceduresF ∧
    (agentInit d t1 t2 t3 t4).conversations = loadOr [] d.conversationsF ∧
    (agentInit d t1 t2 t3 t4).disk.proceduresF = d.proceduresF ∧
    (agentInit d t1 t2 t3 t4).disk.conversationsF = d.conversationsF ∧
    (∀ s1 s2 s3 s4,
      (agentInit (agentInit d t1 t2 t3 t4).disk s1 s2 s3 s4).facts =
        (agentInit d t1 t2 t3 t4).facts ++
        [⟨selfFacts.get! 0, none, s1⟩, ⟨selfFacts.get! 1, none, s2⟩,
         ⟨selfFacts.get! 2, none, s3⟩, ⟨selfFacts.get! 3, none, s4⟩]) := by
  refine ⟨?_, rfl, rfl, rfl, rfl, rfl, fun s1 s2 s3 s4 => ?_⟩ <;>
    simp [agentInit, addFact, initStore, selfFacts, loadOr]

/-- Every pair in the sorted scored list carries the score of its fact,
and that score is positive. -/
lemma snd_of_mem_sorted_scored {facts : List Fact} {q : String}
    {pr : Fact × Nat}
    (hpr : pr ∈ List.insertionSort scoreDesc (scoredFacts facts q)) :
    pr.2 = factScore q pr.1 ∧ 0 < pr.2 := by
  have h2 := (List.mem_insertionSort scoreDesc).mp hpr
  exact ⟨(mem_scoredFacts h2).2.1, (mem_scoredFacts h2).2.2⟩

/-- Claim C2: `search_facts` returns only facts whose lower-cased content
contains at least one whitespace token of the lower-cased query; the
returned list is the first `limit` entries of the full result, which is a
permutation of the positively-scoring facts, is ordered by descending
match count, and keeps insertion order within every score class. -/
theorem C2_search_facts (facts : List Fact) (q : String) (limit : Nat) :
    (∀ f ∈ searchFacts facts q limit,
      ∃ t ∈ queryTokens q, isInfB t (lowerL f.content.data) = true) ∧
    searchFacts facts q limit = (searchFactsFull facts q).take limit ∧
    (searchFactsFull facts q).Perm
      (facts.filter (fun f => decide (0 < factScore q f))) ∧
    (searchFactsFull facts q).Pairwise
      (fun a b => factScore q b ≤ factScore q a) ∧
    (∀ s : Nat,
      (searchFactsFull facts q).filter
          (fun f => decide (factScore q f = s)) =
        (facts.filter (fun f => decide (0 < factScore q f))).filter
          (fun f => decide (factScore q f = s))) := by
  refine ⟨?_, ?_, ?_, ?_, ?_⟩
  · intro f hf
    obtain ⟨pr, hpr, hfst⟩ := List.mem_map.mp hf
    have hpr' : pr ∈ List.insertionSort scoreDesc (scoredFacts facts q) :=
      List.mem_of_mem_take hpr
    have hsc := snd_of_mem_sorted_scored hpr'
    have hpos : 0 < factScore q pr.1 := hsc.1 ▸ hsc.2
    rw [← hfst]
    exact List.countP_pos_iff.mp hpos
  · exact List.map_take _ _ _
  · have hperm :=
      (List.perm_insertionSort scoreDesc (scoredFacts facts q)).map Prod.fst
    rw [map_fst_scoredFacts] at hperm
    exact hperm
  · have hp := List.sorted_insertionSort scoreDesc (scoredFacts facts q)
    have hp2 : (List.insertionSort scoreDesc (scoredFacts facts q)).Pairwise
        (fun a b => factScore q b.1 ≤ factScore q a.1) :=
      List.Pairwise.imp_of_mem (fun ha hb hr => by
        rw [← (snd_of_mem_sorted_scored ha).1,
          ← (snd_of_mem_sorted_scored hb).1]
        exact hr) hp
    exact List.pairwise_map.mpr hp2
  · intro s
    unfold searchFactsFull
    rw [List.filter_map]
    have hcongr :
        (List.insertionSort scoreDesc (scoredFacts facts q)).filter
            ((fun f => decide (factScore q f = s)) ∘ Prod.fst) =
          (List.insertionSort scoreDesc (scoredFacts facts q)).filter
            (fun pr => decide (pr.2 = s)) :=
      List.filter_congr (fun pr hpr => by
        simp [Function.comp, (snd_of_mem_sorted_scored hpr).1])
    rw [hcongr, filter_insertionSort_scoreDesc]
    have hcongr2 :
        (scoredFacts facts q).filter (fun pr => decide (pr.2 = s)) =
          (scoredFacts facts q).filter
            ((fun f => decide (factScore q f = s)) ∘ Prod.fst) :=
      List.filter_congr (fun pr hpr => by
        simp [Function.comp, (mem_scoredFacts hpr).2.1])
    rw [hcongr2, ← List.filter_map, map_fst_scoredFacts]

/-- Claim C2 witnessed on a two-fact store and the query `tea`: the
returned fact matches, so some token of the query occurs in its
lower-cased content. -/
theorem C2_witness :
    ∃ t ∈ queryTokens "tea", isInfB t (lowerL "I like Tea".data) = true := by
  exact (C2_search_facts [⟨"I like Tea", none, 0⟩, ⟨"coffee", none, 1⟩]
    "tea" 3).1 ⟨"I like Tea", none, 0⟩ (by decide)

/-- The filtered procedure list of `search_procedures` is the values of
the matching entries, in dict iteration order. -/
lemma filterMap_procMatch (procs : List (String × Procedure)) (q : String) :
    procs.filterMap (fun e => if procMatch q e then some e.2 else none) =
      (procs.filter (procMatch q)).map Prod.snd := by
  induction procs with
  | nil => rfl
  | cons e es ih =>
    simp only [List.filterMap_cons, List.filter_cons]
    by_cases hm : procMatch q e
    · simp [hm, ih]
    · simp [hm, ih]

/-- Claim C3: `search_procedures` includes a stored procedure exactly when
the entire lower-cased query occurs as a substring of the lower-cased
`name + " " + description` text (the query is not tokenized); matches are
sorted by descending `usage_count` and truncated to `limit`.  In
particular, querying `bake a cake` against a procedure named `Bake Cake`
described as `oven steps` returns the empty list. -/
theorem C3_search_procedures (procs : List (String × Procedure))
    (q : String) (limit : Nat) :
    searchProcedures procs q limit =
      (searchProceduresFull procs q).take limit ∧
    (∀ p ∈ searchProcedures procs q limit,
      ∃ e ∈ procs, e.2 = p ∧ procMatch q e = true) ∧
    (∀ e ∈ procs, procMatch q e = true →
      e.2 ∈ searchProceduresFull procs q) ∧
    (searchProceduresFull procs q).Perm
      ((procs.filter (procMatch q)).map Prod.snd) ∧
    (searchProceduresFull procs q).Pairwise
      (fun a b => b.usage_count ≤ a.usage_count) ∧
    searchProcedures
      [("Bake Cake", ⟨"Bake Cake", ["preheat", "mix", "bake"],
        some "oven steps", 0, 0⟩)] "bake a cake" 2 = [] := by
  refine ⟨rfl, ?_, ?_, ?_, ?_, by decide⟩
  · intro p hp
    have hp' : p ∈ searchProceduresFull procs q := by
      unfold searchProcedures at hp
      exact List.mem_of_mem_take hp
    have h2 := (List.mem_insertionSort usageDesc).mp hp'
    obtain ⟨e, he, heq⟩ := List.mem_filterMap.mp h2
    by_cases hm : procMatch q e
    · rw [if_pos hm] at heq
      cases heq
      exact ⟨e, he, rfl, hm⟩
    · rw [if_neg hm] at heq
      cases heq
  · intro e he hm
    exact (List.mem_insertionSort usageDesc).mpr
      (List.mem_filterMap.mpr ⟨e, he, by rw [if_pos hm]⟩)
  · unfold searchProceduresFull
    rw [filterMap_procMatch]
    exact List.perm_insertionSort usageDesc _
  · exact (List.sorted_insertionSort usageDesc _).imp (fun h => h)

/-- Claim C3 witnessed on a one-procedure store and the query `cake`: the
whole query occurs in the lower-cased text, so the procedure is included
in the full result. -/
theorem C3_witness :
    (⟨"Bake Cake", ["preheat", "mix", "bake"], some "oven steps", 0, 0⟩ :
        Procedure) ∈
      searchProceduresFull
        [("Bake Cake", ⟨"Bake Cake", ["preheat", "mix", "bake"],
          some "oven steps", 0, 0⟩)] "cake" := by
  exact (C3_search_procedures
    [("Bake Cake", ⟨"Bake Cake", ["preheat", "mix", "bake"],
      some "oven steps", 0, 0⟩)] "cake" 2).2.2.1
    ("Bake Cake", ⟨"Bake Cake", ["preheat", "mix", "bake"],
      some "oven steps", 0, 0⟩) (by decide) (by decide)

/-- `add_to_working_memory` reads only the capacity and the working
memory of the store: stores agreeing on those yield the same new working
memory. -/
lemma addToWorkingMemory_congr (st st' : Store) (c : String) (i : ℚ)
    (t : Nat) (hcap : st.capacity = st'.capacity)
    (hwm : st.workingMemory = st'.workingMemory) :
    (addToWorkingMemory st c i t).workingMemory =
      (addToWorkingMemory st' c i t).workingMemory := by
  by_cases h : st'.capacity < st'.workingMemory.length + 1 <;>
    simp [addToWorkingMemory, hcap, hwm, h]

/-- Claim C5: `add_conversation` appends exactly one conversation turn
and inserts exactly two working-memory items through the working-memory
insert rule — the `User:` line at importance 1.0 first, the `Agent:` line
at importance 0.9 second; and in the tea scenario the generated LLM
context contains `tea` inside its Recent Conversation History section and
lists both working-memory items with the user line ranked above the agent
line. -/
theorem C5_add_conversation_and_context :
    (∀ (st : Store) (u a : String) (t1 t2 t3 : Nat),
      (addConversation st u a [] t1 t2 t3).conversations =
        st.conversations ++ [⟨u, a, t1, []⟩] ∧
      (addConversation st u a [] t1 t2 t3).workingMemory =
        (addToWorkingMemory (addToWorkingMemory st ("User: " ++ u) 1 t2)
          ("Agent: " ++ a) (mkRat 9 10) t3).workingMemory) ∧
    isInfB ("### Recent Conversation History:\nUser: I like tea\nAgent: Noted!\n\n### Relevant Facts").data
      (generateContext (addConversation (initStore ⟨.absent, .absent, .absent⟩)
        "I like tea" "Noted!" [] 0 1 2) "tea").data = true ∧
    isInfB ("### Current Context (Working Memory):\n- User: I like tea\n- Agent: Noted!\n\n### Recent").data
      (generateContext (addConversation (initStore ⟨.absent, .absent, .absent⟩)
        "I like tea" "Noted!" [] 0 1 2) "tea").data = true := by
  refine ⟨fun st u a t1 t2 t3 =>
    ⟨addConversation_conversations st u a [] t1 t2 t3, ?_⟩,
    by decide, by decide⟩
  unfold addConversation
  exact addToWorkingMemory_congr _ _ _ _ _
    (by rw [addToWorkingMemory_capacity, addToWorkingMemory_capacity])
    (addToWorkingMemory_congr _ _ _ _ _ rfl rfl)

/-- Claim C8 counterexample: the message `remember thatched roofs are
cool` does not carry the prefix `remember that ` (with trailing space),
yet the agent routes it to `add_fact` — storing the mangled content `hed
roofs are cool` — because the code tests the 13-character prefix
`remember that` while slicing off 14 characters. -/
theorem C8_counterexample :
    pyStartsWith (pyLower "remember thatched roofs are cool")
      "remember that " = false ∧
    (query (fun _ _ => .error "unreached")
        (initStore ⟨.absent, .absent, .absent⟩)
        "remember thatched roofs are cool" 0 0 0).1 =
      factConfirmation "hed roofs are cool" ∧
    (query (fun _ _ => .error "unreached")
        (initStore ⟨.absent, .absent, .absent⟩)
        "remember thatched roofs are cool" 0 0 0).2.facts =
      [⟨"hed roofs are cool", none, 0⟩] := by
  refine ⟨by decide, by decide, by decide⟩

/-- Claim C8 amended: the agent routes a message to `add_fact` — with no
LLM involvement — exactly when its lower-cased text starts with the
13-character prefix `remember that` (a trailing space is not required);
the stored content is the message with its first 14 characters removed
and surrounding whitespace stripped, a confirmation string is returned,
and no conversation turn is recorded.  When the prefix is absent the
facts collection is never touched. -/
theorem C8_fact_command_amended (llm : String → String → Except String String)
    (st : Store) (msg : String) (t1 t2 t3 : Nat) :
    (pyStartsWith (pyLower msg) "remember that" = true →
      query llm st msg t1 t2 t3 =
        (factConfirmation (pyStrip (pyDrop msg 14)),
         addFact st (pyStrip (pyDrop msg 14)) none t1) ∧
      (query llm st msg t1 t2 t3).2.conversations = st.conversations) ∧
    (pyStartsWith (pyLower msg) "remember that" = false →
      (query llm st msg t1 t2 t3).2.facts = st.facts) := by
  constructor
  · intro h
    rw [query, if_pos h]
    exact ⟨rfl, rfl⟩
  · intro h
    rw [query, if_neg (by rw [h]; exact Bool.false_ne_true)]
    by_cases h2 : pyStartsWith (pyLower msg) "remember the steps for" = true
    · rw [if_pos h2]
      rcases hsp : splitAtFirst ':' msg.data with _ | ⟨titlePart, stepsPart⟩
      · rfl
      · rfl
    · rw [if_neg h2]
      rcases hr : llm (generateContext st msg) msg with e | r
      · rfl
      · exact addConversation_facts st msg r [] t1 t2 t3

/-- Claim C8 amended, witnessed at `remember that tea is good`: the fact
command fires, the content is the stripped remainder, and the
conversation log is untouched. -/
theorem C8_witness :
    query (fun _ _ => .error "unreached")
        (initStore ⟨.absent, .absent, .absent⟩)
        "remember that tea is good" 7 8 9 =
      (factConfirmation "tea is good",
       addFact (initStore ⟨.absent, .absent, .absent⟩) "tea is good" none 7) ∧
    (query (fun _ _ => .error "unreached")
        (initStore ⟨.absent, .absent, .absent⟩)
        "remember that tea is good" 7 8 9).2.conversations = [] := by
  have h := (C8_fact_command_amended (fun _ _ => .error "unreached")
    (initStore ⟨.absent, .absent, .absent⟩)
    "remember that tea is good" 7 8 9).1 (by decide)
  have harg : pyStrip (pyDrop "remember that tea is good" 14) =
      "tea is good" := by decide
  rw [harg] at h
  exact ⟨h.1, h.2⟩

/-- A separator that occurs nowhere in the list makes `splitAtFirst`
return `none` (Python `split(sep, 1)` yields a single piece and the
two-variable unpacking raises `ValueError`). -/
lemma splitAtFirst_eq_none {sep : Char} :
    ∀ {l : List Char}, sep ∉ l → splitAtFirst sep l = none := by
  intro l
  induction l with
  | nil => exact fun _ => rfl
  | cons c cs ih =>
    intro h
    have hc : ¬ c = sep := fun hcs => h (hcs ▸ List.mem_cons_self c cs)
    rw [splitAtFirst, if_neg hc, ih (fun hm => h (List.mem_cons_of_mem c hm))]

/-- Claim C9: a message that starts (case-insensitively) with
`remember the steps for` but contains no colon makes the agent catch the
parse failure and return the usage-hint error, with the store — all four
memory collections — left completely unchanged. -/
theorem C9_malformed_procedure_command
    (llm : String → String → Except String String) (st : Store)
    (msg : String) (t1 t2 t3 : Nat)
    (hpre : pyStartsWith (pyLower msg) "remember the steps for" = true)
    (hcolon : ':' ∉ msg.data) :
    query llm st msg t1 t2 t3 = (usageHint, st) := by
  rw [query, if_neg (by rw [not_fact_of_proc hpre]; exact Bool.false_ne_true),
    if_pos hpre, splitAtFirst_eq_none hcolon]

/-- Claim C9 witnessed at `remember the steps for tea` over a fresh
store: the reply is the usage hint and the store is returned unchanged. -/
theorem C9_witness :
    query (fun _ _ => .error "unreached")
        (initStore ⟨.absent, .absent, .absent⟩)
        "remember the steps for tea" 0 1 2 =
      (usageHint, initStore ⟨.absent, .absent, .absent⟩) := by
  exact C9_malformed_procedure_command (fun _ _ => .error "unreached")
    (initStore ⟨.absent, .absent, .absent⟩)
    "remember the steps for tea" 0 1 2 (by decide) (by decide)

end AgentMem
